import Mathlib

/-!
Verification of the torrent core (misc.go and the tracker package) against
its specification.  Go source is shallowly embedded: `peer_protocol.Integer`
(uint32) is modelled as `Nat` (all theorems stay inside the uint32 range, so
wrap-around never fires on the inputs considered), byte slices are
`List Nat`, Go maps used as sets are `List`s, and Go panics are a dedicated
constructor of `GoResult`.
-/

set_option maxRecDepth 4096

/-- Go `const chunkSize = 0x4000` from misc.go.  `peer_protocol.Integer`
(uint32) is modelled as `Nat` throughout. -/
def chunkSize : Nat := 0x4000

/-- Go `type chunkSpec struct { Begin, Length peer_protocol.Integer }`. -/
structure chunkSpec where
  Begin : Nat
  Length : Nat
deriving DecidableEq, Repr

/-- A 20-byte hash sum (`type pieceSum [20]byte`). -/
def pieceSum := { l : List Nat // l.length = 20 }

/-- Go `type piece struct` from misc.go.  `PendingChunkSpecs` is a Go map
used as a set; it is modelled as the list of its keys, so the Go test
`len(p.PendingChunkSpecs) == 0` becomes a test on `List.length`. -/
structure piece where
  Hash : pieceSum
  PendingChunkSpecs : List chunkSpec
  Hashing : Bool
  QueuedForHash : Bool
  EverHashed : Bool

/-- Go `func (p *piece) Complete() bool` from misc.go:
`return len(p.PendingChunkSpecs) == 0 && p.EverHashed`. -/
def piece.Complete (p : piece) : Bool :=
  (p.PendingChunkSpecs.length == 0) && p.EverHashed

/-- Go `func lastChunkSpec(pieceLength peer_protocol.Integer) (cs chunkSpec)`
from misc.go: `cs.Begin = (pieceLength - 1) / chunkSize * chunkSize;
cs.Length = pieceLength - cs.Begin`.  Faithful to the uint32 original for
every `pieceLength > 0` (no wrap-around occurs there). -/
def lastChunkSpec (pieceLength : Nat) : chunkSpec :=
  { Begin := (pieceLength - 1) / chunkSize * chunkSize
    Length := pieceLength - (pieceLength - 1) / chunkSize * chunkSize }

/-- Go `type pieceByBytesPendingSlice struct { Pending, Indices []peer_protocol.Integer }`. -/
structure pieceByBytesPendingSlice where
  Pending : List Nat
  Indices : List Nat

/-- Go `func (me pieceByBytesPendingSlice) Less(i, j int) bool` from misc.go:
`return me.Pending[me.Indices[i]] < me.Pending[me.Indices[j]]`.
Indexing is modelled with `List.getD`; every theorem below only instantiates
it at positions that are in bounds, where `getD` agrees with Go indexing. -/
def pieceByBytesPendingSlice.Less (me : pieceByBytesPendingSlice) (i j : Nat) : Bool :=
  decide (me.Pending.getD (me.Indices.getD i 0) 0 < me.Pending.getD (me.Indices.getD j 0) 0)

/-- Outcome of running a piece of Go code that can panic. -/
inductive GoResult (α : Type) where
  | ok : α → GoResult α
  | panicked : String → GoResult α
deriving DecidableEq, Repr

/-- Go built-in `copy(dst, src)`: copies `min` of the two lengths and
returns the number of elements copied. -/
def goCopy (dst src : List Nat) : List Nat × Nat :=
  let n := min dst.length src.length
  (src.take n ++ dst.drop n, n)

/-- Go `func copyHashSum(dst, src []byte)` from misc.go:
`if len(dst) != len(src) || copy(dst, src) != len(dst) { panic(...) }`.
The `||` short-circuits, so `copy` only runs when the lengths agree. -/
def copyHashSum (dst src : List Nat) : GoResult (List Nat) :=
  if dst.length ≠ src.length then
    .panicked "hash sum sizes differ"
  else
    let r := goCopy dst src
    if r.2 ≠ dst.length then .panicked "hash sum sizes differ"
    else .ok r.1

/-- Go `func BytesInfoHash(b []byte) (ih InfoHash)` from misc.go:
`ih` starts zeroed; `if len(b) != len(ih) || copy(ih[:], b) != len(ih) { panic(...) }`. -/
def BytesInfoHash (b : List Nat) : GoResult (List Nat) :=
  let ih := List.replicate 20 0
  if b.length ≠ ih.length then
    .panicked "bad infohash bytes"
  else
    let r := goCopy ih b
    if r.2 ≠ ih.length then .panicked "bad infohash bytes"
    else .ok r.1

/-- C1: a piece is complete exactly when its pending-chunk set is empty and
`EverHashed` is set; in particular zero pending chunks alone never makes a
piece complete. -/
theorem piece_complete_iff (p : piece) :
    p.Complete = true ↔ p.PendingChunkSpecs.length = 0 ∧ p.EverHashed = true := by
  simp [piece.Complete, Bool.and_eq_true]

/-- A piece with no pending chunks but `EverHashed = false`, used to
instantiate the completeness theorems. -/
def pieceNoHash : piece :=
  { Hash := ⟨List.replicate 20 0, by simp⟩
    PendingChunkSpecs := []
    Hashing := false
    QueuedForHash := false
    EverHashed := false }

/-- C1 witness: the completeness equivalence evaluated at a concrete piece
with an empty pending set and `EverHashed = false`. -/
theorem piece_complete_iff_witness :
    pieceNoHash.Complete = true ↔
      pieceNoHash.PendingChunkSpecs.length = 0 ∧ pieceNoHash.EverHashed = true :=
  piece_complete_iff pieceNoHash

/-- C2: for every positive piece length `L`, `lastChunkSpec L` begins at the
largest multiple of `chunkSize` strictly below `L`, its length is the
remainder `L - Begin` (so `Begin + Length = L` and `0 < Length ≤ chunkSize`),
and the two concrete scenarios from the spec hold. -/
theorem lastChunkSpec_spec (L : Nat) (hL : 0 < L) :
    (lastChunkSpec L).Begin % chunkSize = 0 ∧
    (lastChunkSpec L).Begin < L ∧
    (∀ m : Nat, m % chunkSize = 0 → m < L → m ≤ (lastChunkSpec L).Begin) ∧
    (lastChunkSpec L).Length = L - (lastChunkSpec L).Begin ∧
    (lastChunkSpec L).Begin + (lastChunkSpec L).Length = L ∧
    0 < (lastChunkSpec L).Length ∧
    (lastChunkSpec L).Length ≤ chunkSize ∧
    lastChunkSpec 32768 = ⟨16384, 16384⟩ ∧
    lastChunkSpec 20000 = ⟨16384, 3616⟩ := by
  have hc16 : chunkSize = 16384 := rfl
  have hB : (lastChunkSpec L).Begin = (L - 1) / 16384 * 16384 := rfl
  have hLen : (lastChunkSpec L).Length = L - (L - 1) / 16384 * 16384 := rfl
  have hdiv : (L - 1) / 16384 * 16384 ≤ L - 1 := Nat.div_mul_le_self _ _
  have hlt : (L - 1) / 16384 * 16384 < L :=
    lt_of_le_of_lt hdiv (Nat.sub_lt hL Nat.one_pos)
  rw [hc16]
  refine ⟨?_, ?_, ?_, ?_, ?_, ?_, ?_, by decide, by decide⟩
  · rw [hB]
    exact Nat.mul_mod_left _ _
  · rw [hB]
    exact hlt
  · intro m hm hmL
    rw [hB]
    have hm' : m / 16384 * 16384 = m := Nat.div_mul_cancel (Nat.dvd_of_mod_eq_zero hm)
    have h1 : m / 16384 ≤ (L - 1) / 16384 := Nat.div_le_div_right (by omega)
    calc m = m / 16384 * 16384 := hm'.symm
      _ ≤ (L - 1) / 16384 * 16384 := Nat.mul_le_mul_right _ h1
  · rw [hB, hLen]
  · rw [hB, hLen]
    omega
  · rw [hLen]
    omega
  · rw [hLen]
    omega

/-- C2 witness: the characterisation applied at the concrete piece length
20000. -/
theorem lastChunkSpec_spec_witness :
    (0 : Nat) < 20000 ∧ (lastChunkSpec 20000).Begin + (lastChunkSpec 20000).Length = 20000 :=
  ⟨by decide, (lastChunkSpec_spec 20000 (by decide)).2.2.2.2.1⟩

/-- A concrete comparator state with two pieces of equal pending counts. -/
def tieSlice : pieceByBytesPendingSlice :=
  { Pending := [5, 5], Indices := [0, 1] }

/-- C3 counterexample: in `tieSlice` the pieces at `Indices[0]` and
`Indices[1]` have equal pending counts and `Indices[0] < Indices[1]`, yet
`Less 0 1` is `false` — the comparator does not rank the smaller piece index
first on a tie. -/
theorem less_tie_counterexample :
    tieSlice.Pending.getD (tieSlice.Indices.getD 0 0) 0 =
      tieSlice.Pending.getD (tieSlice.Indices.getD 1 0) 0 ∧
    tieSlice.Indices.getD 0 0 < tieSlice.Indices.getD 1 0 ∧
    tieSlice.Less 0 1 = false := by
  decide

/-- C3 amended: the comparator orders positions by ascending pending-byte
count only; when the pending counts are equal it reports `false` both ways
(no tie-break by index). -/
theorem less_iff_pending_lt (me : pieceByBytesPendingSlice) (i j : Nat) :
    (me.Less i j = true ↔
      me.Pending.getD (me.Indices.getD i 0) 0 < me.Pending.getD (me.Indices.getD j 0) 0) ∧
    (me.Pending.getD (me.Indices.getD i 0) 0 = me.Pending.getD (me.Indices.getD j 0) 0 →
      me.Less i j = false ∧ me.Less j i = false) := by
  refine ⟨?_, fun h => ⟨?_, ?_⟩⟩
  · unfold pieceByBytesPendingSlice.Less
    exact decide_eq_true_iff
  · unfold pieceByBytesPendingSlice.Less
    rw [h]
    exact decide_eq_false (lt_irrefl _)
  · unfold pieceByBytesPendingSlice.Less
    rw [h]
    exact decide_eq_false (lt_irrefl _)

/-- C3 amended witness: the characterisation applied to the concrete tie. -/
theorem less_iff_pending_lt_witness :
    tieSlice.Less 0 1 = false ∧ tieSlice.Less 1 0 = false :=
  (less_iff_pending_lt tieSlice 0 1).2 (by decide)

/-- C4 counterexample: on a byte slice whose length is not 20 the shipped
code panics — it does not surface a typed construction failure. -/
theorem hash_mismatch_counterexample :
    BytesInfoHash [] = .panicked "bad infohash bytes" ∧
    copyHashSum (List.replicate 20 0) [1, 2, 3] = .panicked "hash sum sizes differ" := by
  decide

/-- C4 amended: for every byte slice whose length is not 20, both
`copyHashSum` (against a 20-byte destination) and `BytesInfoHash` abort with
a panic; they succeed exactly on length-20 inputs, returning the copied
bytes. -/
theorem hash_mismatch_panics (b : List Nat) :
    (b.length ≠ 20 →
      BytesInfoHash b = .panicked "bad infohash bytes" ∧
      copyHashSum (List.replicate 20 0) b = .panicked "hash sum sizes differ") ∧
    (b.length = 20 →
      BytesInfoHash b = .ok b ∧
      copyHashSum (List.replicate 20 0) b = .ok b) := by
  constructor
  · intro h
    constructor
    · simp [BytesInfoHash, h]
    · simp only [copyHashSum, List.length_replicate]
      rw [if_pos (by omega)]
  · intro h
    have htake : b.take 20 = b := List.take_of_length_le (le_of_eq h)
    have hdrop : (List.replicate 20 (0 : Nat)).drop 20 = [] := by simp
    constructor
    · simp [BytesInfoHash, goCopy, h, htake, hdrop]
    · simp [copyHashSum, goCopy, h, htake, hdrop]

/-- C4 amended witness: the characterisation applied at the concrete
3-byte input and at a concrete 20-byte input. -/
theorem hash_mismatch_panics_witness :
    BytesInfoHash [1, 2, 3] = .panicked "bad infohash bytes" ∧
    BytesInfoHash (List.replicate 20 7) = .ok (List.replicate 20 7) :=
  ⟨((hash_mismatch_panics [1, 2, 3]).1 (by decide)).1,
   ((hash_mismatch_panics (List.replicate 20 7)).2 (by decide)).1⟩

/-- Modelled from the spec: the tracker package's wire codec (the Go file
defining `read`, `write`, `ResponseHeader`, `AnnounceResponseHeader` and the
compact peer list) is not under src/; only its tests are.  Error taxonomy
follows spec section 4.3 / section 7. -/
inductive DecodeError where
  | truncated
  | malformedPeerList
deriving DecidableEq, Repr

/-- Big-endian encoding of `n` into exactly `w` bytes (network byte order,
as `encoding/binary.Write` with `binary.BigEndian` produces). -/
def encBE : Nat → Nat → List Nat
  | 0, _ => []
  | w + 1, n => encBE w (n / 256) ++ [n % 256]

/-- Big-endian decoding of a byte list into a natural number. -/
def decBE (l : List Nat) : Nat :=
  l.foldl (fun a b => a * 256 + b) 0

theorem encBE_length (w n : Nat) : (encBE w n).length = w := by
  induction w generalizing n with
  | zero => rfl
  | succ w ih => simp [encBE, ih]

theorem decBE_append_single (l : List Nat) (x : Nat) :
    decBE (l ++ [x]) = decBE l * 256 + x := by
  simp [decBE, List.foldl_append]

theorem decBE_encBE (w n : Nat) (h : n < 256 ^ w) : decBE (encBE w n) = n := by
  induction w generalizing n with
  | zero =>
    have : n = 0 := by simpa using Nat.lt_one_iff.mp (by simpa using h)
    simp [this, encBE, decBE]
  | succ w ih =>
    have h1 : n / 256 < 256 ^ w := by
      apply Nat.div_lt_of_lt_mul
      calc n < 256 ^ (w + 1) := h
        _ = 256 * 256 ^ w := by rw [pow_succ, Nat.mul_comm]
    rw [encBE, decBE_append_single, ih _ h1, Nat.mul_comm]
    exact Nat.div_add_mod n 256

theorem take_append_exact {l rest : List Nat} {w : Nat} (h : l.length = w) :
    (l ++ rest).take w = l :=
  List.take_left' h

theorem drop_append_exact {l rest : List Nat} {w : Nat} (h : l.length = w) :
    (l ++ rest).drop w = rest :=
  List.drop_left' h

/-- Truncation of `l` to its declared length is the identity. -/
theorem take_exact {l : List Nat} {w : Nat} (h : l.length = w) : l.take w = l :=
  List.take_of_length_le h.le

/-- Two's-complement image of a signed 32-bit value on the wire
(`numWant = -1` is sent as `0xffffffff`). -/
def toU32 (i : Int) : Nat := (i % 4294967296).toNat

/-- Signed reading of a 32-bit wire value. -/
def fromU32 (m : Nat) : Int :=
  if m < 2147483648 then (m : Int) else (m : Int) - 4294967296

theorem fromU32_toU32 (i : Int) (h1 : -2147483648 ≤ i) (h2 : i < 2147483648) :
    fromU32 (toU32 i) = i := by
  unfold fromU32 toU32
  split <;> omega

theorem toU32_lt (i : Int) : toU32 i < 4294967296 := by
  unfold toU32
  omega

/-- Modelled from the spec: connect-request
`(connectionId: 64-bit, action: 32-bit, transactionId: 32-bit)` (the Go
tracker package's `RequestHeader`; udp.go is not under src/). -/
structure ConnectRequest where
  ConnectionId : Nat
  Action : Nat
  TransactionId : Nat
deriving DecidableEq, Repr

/-- Field ranges making a `ConnectRequest` representable on the wire. -/
def ConnectRequest.Valid (x : ConnectRequest) : Prop :=
  x.ConnectionId < 2 ^ 64 ∧ x.Action < 2 ^ 32 ∧ x.TransactionId < 2 ^ 32

/-- The fixed connect magic from the spec (`0x41727101980`). -/
def connectRequestMagic : Nat := 0x41727101980

def encodeConnectRequest (x : ConnectRequest) : List Nat :=
  encBE 8 x.ConnectionId ++ (encBE 4 x.Action ++ encBE 4 x.TransactionId)

def decodeConnectRequest (b : List Nat) : Except DecodeError ConnectRequest :=
  if 16 ≤ b.length then
    let b1 := b.drop 8
    let b2 := b1.drop 4
    .ok { ConnectionId := decBE (b.take 8)
          Action := decBE (b1.take 4)
          TransactionId := decBE (b2.take 4) }
  else .error .truncated

/-- Modelled from the spec: connect-response
`(action: 32-bit, transactionId: 32-bit, connectionId: 64-bit)`. -/
structure ConnectResponse where
  Action : Nat
  TransactionId : Nat
  ConnectionId : Nat
deriving DecidableEq, Repr

def ConnectResponse.Valid (x : ConnectResponse) : Prop :=
  x.Action < 2 ^ 32 ∧ x.TransactionId < 2 ^ 32 ∧ x.ConnectionId < 2 ^ 64

def encodeConnectResponse (x : ConnectResponse) : List Nat :=
  encBE 4 x.Action ++ (encBE 4 x.TransactionId ++ encBE 8 x.ConnectionId)

def decodeConnectResponse (b : List Nat) : Except DecodeError ConnectResponse :=
  if 16 ≤ b.length then
    let b1 := b.drop 4
    let b2 := b1.drop 4
    .ok { Action := decBE (b.take 4)
          TransactionId := decBE (b1.take 4)
          ConnectionId := decBE (b2.take 8) }
  else .error .truncated

/-- Modelled from the spec: the Go tracker package's `ResponseHeader`
`(action: 32-bit, transactionId: 32-bit)`, the fixed 8-byte-minimum prefix
of every tracker response (`TestShortBinaryRead` reads one). -/
structure ResponseHeader where
  Action : Nat
  TransactionId : Nat
deriving DecidableEq, Repr

def ResponseHeader.Valid (x : ResponseHeader) : Prop :=
  x.Action < 2 ^ 32 ∧ x.TransactionId < 2 ^ 32

def encodeResponseHeader (x : ResponseHeader) : List Nat :=
  encBE 4 x.Action ++ encBE 4 x.TransactionId

/-- Modelled from the spec: decoding a `ResponseHeader` from a buffer, as
`binary.Read` does — it requires the full fixed width and reports a
truncation failure (Go `io.ErrUnexpectedEOF`) when fewer bytes are
available; no field is zero-filled: on failure no header is produced. -/
def decodeResponseHeader (b : List Nat) : Except DecodeError ResponseHeader :=
  if 8 ≤ b.length then
    let b1 := b.drop 4
    .ok { Action := decBE (b.take 4)
          TransactionId := decBE (b1.take 4) }
  else .error .truncated

/-- Modelled from the spec: announce-request fields of section 4.3, in wire
order; `NumWant` is the signed 32-bit field. -/
structure AnnounceRequest where
  ConnectionId : Nat
  Action : Nat
  TransactionId : Nat
  InfoHash : List Nat
  PeerId : List Nat
  Downloaded : Nat
  Left : Nat
  Uploaded : Nat
  Event : Nat
  IP : Nat
  Key : Nat
  NumWant : Int
  Port : Nat
deriving DecidableEq, Repr

def AnnounceRequest.Valid (x : AnnounceRequest) : Prop :=
  x.ConnectionId < 2 ^ 64 ∧ x.Action < 2 ^ 32 ∧ x.TransactionId < 2 ^ 32 ∧
  x.InfoHash.length = 20 ∧ x.PeerId.length = 20 ∧
  x.Downloaded < 2 ^ 64 ∧ x.Left < 2 ^ 64 ∧ x.Uploaded < 2 ^ 64 ∧
  x.Event < 2 ^ 32 ∧ x.IP < 2 ^ 32 ∧ x.Key < 2 ^ 32 ∧
  -2147483648 ≤ x.NumWant ∧ x.NumWant < 2147483648 ∧ x.Port < 2 ^ 16

def encodeAnnounceRequest (x : AnnounceRequest) : List Nat :=
  encBE 8 x.ConnectionId ++ (encBE 4 x.Action ++ (encBE 4 x.TransactionId ++
    (x.InfoHash ++ (x.PeerId ++ (encBE 8 x.Downloaded ++ (encBE 8 x.Left ++
    (encBE 8 x.Uploaded ++ (encBE 4 x.Event ++ (encBE 4 x.IP ++ (encBE 4 x.Key ++
    (encBE 4 (toU32 x.NumWant) ++ encBE 2 x.Port)))))))))))

def decodeAnnounceRequest (b : List Nat) : Except DecodeError AnnounceRequest :=
  if 98 ≤ b.length then
    let b1 := b.drop 8
    let b2 := b1.drop 4
    let b3 := b2.drop 4
    let b4 := b3.drop 20
    let b5 := b4.drop 20
    let b6 := b5.drop 8
    let b7 := b6.drop 8
    let b8 := b7.drop 8
    let b9 := b8.drop 4
    let b10 := b9.drop 4
    let b11 := b10.drop 4
    let b12 := b11.drop 4
    .ok { ConnectionId := decBE (b.take 8)
          Action := decBE (b1.take 4)
          TransactionId := decBE (b2.take 4)
          InfoHash := b3.take 20
          PeerId := b4.take 20
          Downloaded := decBE (b5.take 8)
          Left := decBE (b6.take 8)
          Uploaded := decBE (b7.take 8)
          Event := decBE (b8.take 4)
          IP := decBE (b9.take 4)
          Key := decBE (b10.take 4)
          NumWant := fromU32 (decBE (b11.take 4))
          Port := decBE (b12.take 2) }
  else .error .truncated

/-- Modelled from the spec: a compact peer entry
`(ip: 4 bytes, port: 16-bit)` (the Go `util.CompactPeer`). -/
structure CompactPeer where
  IP : List Nat
  Port : Nat
deriving DecidableEq, Repr

def CompactPeer.Valid (p : CompactPeer) : Prop :=
  p.IP.length = 4 ∧ p.Port < 2 ^ 16

/-- Modelled from the spec: `util.CompactPeers`, a peer list; `WriteBinary`
emits each peer as its 4 IP bytes followed by the big-endian 16-bit port. -/
abbrev CompactPeers := List CompactPeer

def CompactPeers.WriteBinary : CompactPeers → List Nat
  | [] => []
  | p :: rest => p.IP ++ (encBE 2 p.Port ++ CompactPeers.WriteBinary rest)

/-- Modelled from the spec: decoding a compact-peer list consumes all
remaining bytes in multiples of 6; a remainder not divisible by 6 is
`malformedPeerList`. -/
def decodePeers : List Nat → Except DecodeError (List CompactPeer)
  | [] => .ok []
  | a :: b :: c :: d :: e :: f :: rest =>
    match decodePeers rest with
    | .ok ps => .ok ({ IP := [a, b, c, d], Port := decBE [e, f] } :: ps)
    | .error err => .error err
  | _ => .error .malformedPeerList

/-- Modelled from the spec: the announce-response header fields after the
common response header: `(interval, leechers, seeders)`, each 32-bit — the
Go `AnnounceResponseHeader`, whose `binary.Size` is pinned to 12 by
`TestMarshalAnnounceResponse`. -/
structure AnnounceResponseHeader where
  Interval : Nat
  Leechers : Nat
  Seeders : Nat
deriving DecidableEq, Repr

def AnnounceResponseHeader.Valid (x : AnnounceResponseHeader) : Prop :=
  x.Interval < 2 ^ 32 ∧ x.Leechers < 2 ^ 32 ∧ x.Seeders < 2 ^ 32

def encodeAnnounceResponseHeader (x : AnnounceResponseHeader) : List Nat :=
  encBE 4 x.Interval ++ (encBE 4 x.Leechers ++ encBE 4 x.Seeders)

def decodeAnnounceResponseHeader (b : List Nat) : Except DecodeError AnnounceResponseHeader :=
  if 12 ≤ b.length then
    let b1 := b.drop 4
    let b2 := b1.drop 4
    .ok { Interval := decBE (b.take 4)
          Leechers := decBE (b1.take 4)
          Seeders := decBE (b2.take 4) }
  else .error .truncated

/-- Modelled from the spec: a full announce response —
`(action, transactionId, interval, leechers, seeders)` followed by the
variable-length compact peer list. -/
structure AnnounceResponsePacket where
  Action : Nat
  TransactionId : Nat
  Interval : Nat
  Leechers : Nat
  Seeders : Nat
  Peers : List CompactPeer
deriving DecidableEq, Repr

def AnnounceResponsePacket.Valid (x : AnnounceResponsePacket) : Prop :=
  x.Action < 2 ^ 32 ∧ x.TransactionId < 2 ^ 32 ∧ x.Interval < 2 ^ 32 ∧
  x.Leechers < 2 ^ 32 ∧ x.Seeders < 2 ^ 32 ∧ ∀ p ∈ x.Peers, p.Valid

def encodeAnnounceResponse (x : AnnounceResponsePacket) : List Nat :=
  encBE 4 x.Action ++ (encBE 4 x.TransactionId ++ (encBE 4 x.Interval ++
    (encBE 4 x.Leechers ++ (encBE 4 x.Seeders ++ CompactPeers.WriteBinary x.Peers))))

def decodeAnnounceResponse (b : List Nat) : Except DecodeError AnnounceResponsePacket :=
  if 20 ≤ b.length then
    let b1 := b.drop 4
    let b2 := b1.drop 4
    let b3 := b2.drop 4
    let b4 := b3.drop 4
    let b5 := b4.drop 4
    match decodePeers b5 with
    | .ok ps =>
      .ok { Action := decBE (b.take 4)
            TransactionId := decBE (b1.take 4)
            Interval := decBE (b2.take 4)
            Leechers := decBE (b3.take 4)
            Seeders := decBE (b4.take 4)
            Peers := ps }
    | .error e => .error e
  else .error .truncated

theorem decBE_encBE2 {n : Nat} (h : n < 2 ^ 16) : decBE (encBE 2 n) = n :=
  decBE_encBE 2 n (by norm_num at h ⊢; omega)

theorem decBE_encBE4 {n : Nat} (h : n < 2 ^ 32) : decBE (encBE 4 n) = n :=
  decBE_encBE 4 n (by norm_num at h ⊢; omega)

theorem decBE_encBE8 {n : Nat} (h : n < 2 ^ 64) : decBE (encBE 8 n) = n :=
  decBE_encBE 8 n (by norm_num at h ⊢; omega)

theorem decode_encode_connectRequest (x : ConnectRequest) (h : x.Valid) :
    decodeConnectRequest (encodeConnectRequest x) = .ok x := by
  obtain ⟨h1, h2, h3⟩ := h
  have lc := encBE_length 8 x.ConnectionId
  have la := encBE_length 4 x.Action
  have lt := encBE_length 4 x.TransactionId
  have hlen : 16 ≤ (encodeConnectRequest x).length := by
    simp [encodeConnectRequest, encBE_length]
  simp only [decodeConnectRequest]
  rw [if_pos hlen]
  simp only [encodeConnectRequest]
  rw [take_append_exact lc, drop_append_exact lc, take_append_exact la,
      drop_append_exact la, take_exact lt,
      decBE_encBE8 h1, decBE_encBE4 h2, decBE_encBE4 h3]

theorem decode_encode_connectResponse (x : ConnectResponse) (h : x.Valid) :
    decodeConnectResponse (encodeConnectResponse x) = .ok x := by
  obtain ⟨h1, h2, h3⟩ := h
  have la := encBE_length 4 x.Action
  have lt := encBE_length 4 x.TransactionId
  have lc := encBE_length 8 x.ConnectionId
  have hlen : 16 ≤ (encodeConnectResponse x).length := by
    simp [encodeConnectResponse, encBE_length]
  simp only [decodeConnectResponse]
  rw [if_pos hlen]
  simp only [encodeConnectResponse]
  rw [take_append_exact la, drop_append_exact la, take_append_exact lt,
      drop_append_exact lt, take_exact lc,
      decBE_encBE4 h1, decBE_encBE4 h2, decBE_encBE8 h3]

theorem decode_encode_responseHeader (x : ResponseHeader) (h : x.Valid) :
    decodeResponseHeader (encodeResponseHeader x) = .ok x := by
  obtain ⟨h1, h2⟩ := h
  have la := encBE_length 4 x.Action
  have lt := encBE_length 4 x.TransactionId
  have hlen : 8 ≤ (encodeResponseHeader x).length := by
    simp [encodeResponseHeader, encBE_length]
  simp only [decodeResponseHeader]
  rw [if_pos hlen]
  simp only [encodeResponseHeader]
  rw [take_append_exact la, drop_append_exact la, take_exact lt,
      decBE_encBE4 h1, decBE_encBE4 h2]

theorem decode_encode_announceResponseHeader (x : AnnounceResponseHeader) (h : x.Valid) :
    decodeAnnounceResponseHeader (encodeAnnounceResponseHeader x) = .ok x := by
  obtain ⟨h1, h2, h3⟩ := h
  have li := encBE_length 4 x.Interval
  have ll := encBE_length 4 x.Leechers
  have ls := encBE_length 4 x.Seeders
  have hlen : 12 ≤ (encodeAnnounceResponseHeader x).length := by
    simp [encodeAnnounceResponseHeader, encBE_length]
  simp only [decodeAnnounceResponseHeader]
  rw [if_pos hlen]
  simp only [encodeAnnounceResponseHeader]
  rw [take_append_exact li, drop_append_exact li, take_append_exact ll,
      drop_append_exact ll, take_exact ls,
      decBE_encBE4 h1, decBE_encBE4 h2, decBE_encBE4 h3]

theorem decode_encode_announceRequest (x : AnnounceRequest) (h : x.Valid) :
    decodeAnnounceRequest (encodeAnnounceRequest x) = .ok x := by
  obtain ⟨h1, h2, h3, h4, h5, h6, h7, h8, h9, h10, h11, h12, h13, h14⟩ := h
  have lc := encBE_length 8 x.ConnectionId
  have la := encBE_length 4 x.Action
  have lt := encBE_length 4 x.TransactionId
  have ld := encBE_length 8 x.Downloaded
  have ll := encBE_length 8 x.Left
  have lu := encBE_length 8 x.Uploaded
  have le' := encBE_length 4 x.Event
  have lip := encBE_length 4 x.IP
  have lk := encBE_length 4 x.Key
  have ln := encBE_length 4 (toU32 x.NumWant)
  have lp := encBE_length 2 x.Port
  have hnw : toU32 x.NumWant < 2 ^ 32 := by
    have := toU32_lt x.NumWant
    norm_num at this ⊢
    omega
  have hlen : 98 ≤ (encodeAnnounceRequest x).length := by
    simp [encodeAnnounceRequest, encBE_length, h4, h5]
  simp only [decodeAnnounceRequest]
  rw [if_pos hlen]
  simp only [encodeAnnounceRequest]
  rw [take_append_exact lc, drop_append_exact lc,
      take_append_exact la, drop_append_exact la,
      take_append_exact lt, drop_append_exact lt,
      take_append_exact h4, drop_append_exact h4,
      take_append_exact h5, drop_append_exact h5,
      take_append_exact ld, drop_append_exact ld,
      take_append_exact ll, drop_append_exact ll,
      take_append_exact lu, drop_append_exact lu,
      take_append_exact le', drop_append_exact le',
      take_append_exact lip, drop_append_exact lip,
      take_append_exact lk, drop_append_exact lk,
      take_append_exact ln, drop_append_exact ln,
      take_exact lp,
      decBE_encBE8 h1, decBE_encBE4 h2, decBE_encBE4 h3,
      decBE_encBE8 h6, decBE_encBE8 h7, decBE_encBE8 h8,
      decBE_encBE4 h9, decBE_encBE4 h10, decBE_encBE4 h11,
      decBE_encBE4 hnw, decBE_encBE2 h14,
      fromU32_toU32 x.NumWant h12 h13]

theorem list_len4 {ip : List Nat} (h : ip.length = 4) :
    ∃ a b c d, ip = [a, b, c, d] := by
  match ip with
  | [a, b, c, d] => exact ⟨a, b, c, d, rfl⟩
  | [] => simp at h
  | [_] => simp at h
  | [_, _] => simp at h
  | [_, _, _] => simp at h
  | _ :: _ :: _ :: _ :: _ :: _ => simp at h

theorem decodePeers_writeBinary (ps : List CompactPeer) (h : ∀ p ∈ ps, p.Valid) :
    decodePeers (CompactPeers.WriteBinary ps) = .ok ps := by
  induction ps with
  | nil => rfl
  | cons p rest ih =>
    obtain ⟨hip, hport⟩ := h p (List.mem_cons_self p rest)
    have hrest := ih (fun q hq => h q (List.mem_cons_of_mem p hq))
    obtain ⟨pip, pport⟩ := p
    obtain ⟨a, b, c, d, rfl⟩ := list_len4 hip
    have hdec : decBE [pport / 256 % 256, pport % 256] = pport := by
      show (0 * 256 + pport / 256 % 256) * 256 + pport % 256 = pport
      have : pport < 65536 := by norm_num at hport; omega
      omega
    show decodePeers
        (a :: b :: c :: d :: pport / 256 % 256 :: pport % 256 ::
          CompactPeers.WriteBinary rest) = _
    simp only [decodePeers, hrest, hdec]

theorem decode_encode_announceResponse (x : AnnounceResponsePacket) (h : x.Valid) :
    decodeAnnounceResponse (encodeAnnounceResponse x) = .ok x := by
  obtain ⟨h1, h2, h3, h4, h5, hps⟩ := h
  have la := encBE_length 4 x.Action
  have lt := encBE_length 4 x.TransactionId
  have li := encBE_length 4 x.Interval
  have ll := encBE_length 4 x.Leechers
  have ls := encBE_length 4 x.Seeders
  have hlen : 20 ≤ (encodeAnnounceResponse x).length := by
    simp [encodeAnnounceResponse, encBE_length]
    omega
  simp only [decodeAnnounceResponse]
  rw [if_pos hlen]
  simp only [encodeAnnounceResponse]
  rw [take_append_exact la, drop_append_exact la,
      take_append_exact lt, drop_append_exact lt,
      take_append_exact li, drop_append_exact li,
      take_append_exact ll, drop_append_exact ll,
      take_append_exact ls, drop_append_exact ls,
      decodePeers_writeBinary x.Peers hps,
      decBE_encBE4 h1, decBE_encBE4 h2, decBE_encBE4 h3,
      decBE_encBE4 h4, decBE_encBE4 h5]

/-- C5: decoding the fixed 8-byte response header from any buffer holding
fewer than 8 bytes fails with the truncation error; no panic occurs (the
decoder is a total function) and no zero-filled header is produced (the
error constructor carries no header value). -/
theorem decodeResponseHeader_truncated (b : List Nat) (h : b.length < 8) :
    decodeResponseHeader b = .error .truncated := by
  unfold decodeResponseHeader
  rw [if_neg (by omega)]

/-- C5 witness: the 4-byte buffer used by `TestShortBinaryRead`, and a
3-byte buffer, both decode to the truncation error. -/
theorem decodeResponseHeader_truncated_witness :
    decodeResponseHeader [0, 0, 0, 1] = .error .truncated ∧
    decodeResponseHeader [1, 2, 3] = .error .truncated :=
  ⟨decodeResponseHeader_truncated _ (by decide),
   decodeResponseHeader_truncated _ (by decide)⟩

/-- C6: the two compact peers (127.0.0.1, port 2) and (255.0.0.3, port 4)
encode to exactly the 12 bytes pinned by `TestMarshalAnnounceResponse`
(6 bytes per peer: 4 big-endian IPv4 bytes then the 16-bit big-endian
port), and an announce response carrying those peer bytes decodes to
exactly those two peers in that order. -/
theorem compactPeers_scenario :
    CompactPeers.WriteBinary
        [{ IP := [127, 0, 0, 1], Port := 2 }, { IP := [255, 0, 0, 3], Port := 4 }] =
      [0x7f, 0x00, 0x00, 0x01, 0x00, 0x02, 0xff, 0x00, 0x00, 0x03, 0x00, 0x04] ∧
    (CompactPeers.WriteBinary [{ IP := [127, 0, 0, 1], Port := 2 }]).length = 6 ∧
    decodeAnnounceResponse
        (encBE 4 1 ++ (encBE 4 7 ++ (encBE 4 1800 ++ (encBE 4 2 ++ (encBE 4 5 ++
          [0x7f, 0x00, 0x00, 0x01, 0x00, 0x02, 0xff, 0x00, 0x00, 0x03, 0x00, 0x04]))))) =
      .ok { Action := 1, TransactionId := 7, Interval := 1800, Leechers := 2, Seeders := 5,
            Peers := [{ IP := [127, 0, 0, 1], Port := 2 },
                      { IP := [255, 0, 0, 3], Port := 4 }] } := by
  refine ⟨rfl, rfl, rfl⟩

/-- C7: decode of encode is the identity for every defined wire structure —
connect request, connect response, the 8-byte response header, the announce
request, the 12-byte announce-response header, full announce responses with
any number of compact peer entries (0, 1, or N), and bare compact peer
lists. -/
theorem wire_roundtrip :
    (∀ x : ConnectRequest, x.Valid →
      decodeConnectRequest (encodeConnectRequest x) = .ok x) ∧
    (∀ x : ConnectResponse, x.Valid →
      decodeConnectResponse (encodeConnectResponse x) = .ok x) ∧
    (∀ x : ResponseHeader, x.Valid →
      decodeResponseHeader (encodeResponseHeader x) = .ok x) ∧
    (∀ x : AnnounceRequest, x.Valid →
      decodeAnnounceRequest (encodeAnnounceRequest x) = .ok x) ∧
    (∀ x : AnnounceResponseHeader, x.Valid →
      decodeAnnounceResponseHeader (encodeAnnounceResponseHeader x) = .ok x) ∧
    (∀ x : AnnounceResponsePacket, x.Valid →
      decodeAnnounceResponse (encodeAnnounceResponse x) = .ok x) ∧
    (∀ ps : CompactPeers, (∀ p ∈ ps, p.Valid) →
      decodePeers (CompactPeers.WriteBinary ps) = .ok ps) :=
  ⟨decode_encode_connectRequest, decode_encode_connectResponse,
   decode_encode_responseHeader, decode_encode_announceRequest,
   decode_encode_announceResponseHeader, decode_encode_announceResponse,
   decodePeers_writeBinary⟩

/-- A concrete announce request used to instantiate the round-trip
theorem. -/
def sampleAnnounceRequest : AnnounceRequest :=
  { ConnectionId := 42, Action := 1, TransactionId := 7
    InfoHash := List.replicate 20 1, PeerId := List.replicate 20 2
    Downloaded := 0, Left := 100, Uploaded := 0, Event := 2, IP := 0, Key := 5
    NumWant := -1, Port := 6881 }

/-- C7 witness: the round trip evaluated at a concrete connect request
(carrying the connect magic), a concrete announce request, an announce
response with two peers, and an announce response with zero peers. -/
theorem wire_roundtrip_witness :
    decodeConnectRequest (encodeConnectRequest ⟨connectRequestMagic, 0, 99⟩) =
      .ok ⟨connectRequestMagic, 0, 99⟩ ∧
    decodeAnnounceRequest (encodeAnnounceRequest sampleAnnounceRequest) =
      .ok sampleAnnounceRequest ∧
    decodeAnnounceResponse (encodeAnnounceResponse
        { Action := 1, TransactionId := 7, Interval := 1800, Leechers := 2, Seeders := 5,
          Peers := [{ IP := [127, 0, 0, 1], Port := 2 },
                    { IP := [255, 0, 0, 3], Port := 4 }] }) =
      .ok { Action := 1, TransactionId := 7, Interval := 1800, Leechers := 2, Seeders := 5,
            Peers := [{ IP := [127, 0, 0, 1], Port := 2 },
                      { IP := [255, 0, 0, 3], Port := 4 }] } ∧
    decodeAnnounceResponse (encodeAnnounceResponse
        { Action := 1, TransactionId := 8, Interval := 60, Leechers := 0, Seeders := 0,
          Peers := [] }) =
      .ok { Action := 1, TransactionId := 8, Interval := 60, Leechers := 0, Seeders := 0,
            Peers := [] } :=
  ⟨wire_roundtrip.1 _ ⟨by decide, by decide, by decide⟩,
   wire_roundtrip.2.2.2.1 sampleAnnounceRequest
     ⟨by decide, by decide, by decide, by decide, by decide, by decide, by decide,
      by decide, by decide, by decide, by decide, by decide, by decide, by decide⟩,
   wire_roundtrip.2.2.2.2.2.1 _
     ⟨by decide, by decide, by decide, by decide, by decide, by
       intro p hp
       simp only [List.mem_cons, List.not_mem_nil, or_false] at hp
       rcases hp with rfl | rfl
       · exact ⟨by decide, by decide⟩
       · exact ⟨by decide, by decide⟩⟩,
   wire_roundtrip.2.2.2.2.2.1 _
     ⟨by decide, by decide, by decide, by decide, by decide,
      fun p hp => absurd hp (List.not_mem_nil p)⟩⟩

/-- A file entry of the metainfo (`miFile.Path`, `miFile.Length`); paths are
sequences of segments, lengths are int64 byte counts. -/
structure MIFile where
  Path : List String
  Length : Int
deriving DecidableEq, Repr

/-- The metainfo fields used by `mmapTorrentData` (`metaInfo.Name`,
`metaInfo.Files`). -/
structure MetaInfo where
  Name : String
  Files : List MIFile
deriving DecidableEq, Repr

/-- Association-list lookup of a file size by exact path. -/
def lookupSize : List (List String × Int) → List String → Option Int
  | [], _ => none
  | (q, v) :: rest, p => if q = p then some v else lookupSize rest p

/-- A model of the on-disk state `mmapTorrentData` manipulates: the set of
existing directories and the existing files with their sizes. -/
structure FS where
  dirs : List (List String)
  files : List (List String × Int)
deriving DecidableEq, Repr

def FS.size (fs : FS) (p : List String) : Option Int :=
  lookupSize fs.files p

/-- `os.MkdirAll`: the directory and all its ancestors exist afterwards. -/
def FS.mkdirAll (fs : FS) (d : List String) : FS :=
  { fs with dirs := d.inits ++ fs.dirs }

/-- File creation at size 0 (the effect of `os.O_CREATE` on a missing
file). -/
def FS.create (fs : FS) (p : List String) : FS :=
  { fs with files := (p, 0) :: fs.files }

/-- `file.Truncate(n)`: the file's size becomes exactly `n`. -/
def FS.setSize (fs : FS) (p : List String) (n : Int) : FS :=
  { fs with files := (p, n) :: fs.files }

/-- `os.OpenFile(p, os.O_CREATE|os.O_RDWR, 0666)`: creates the file at size
0 only when it does not already exist. -/
def FS.openCreate (fs : FS) (p : List String) : FS :=
  if (fs.size p).isSome then fs else fs.create p

/-- Failure injection for each OS call `mmapTorrentData` performs; the Go
errors are opaque, so only which call failed is modelled. -/
structure OSEnv where
  mkdirFails : List String → Bool
  openFails : List String → Bool
  statFails : List String → Bool
  truncateFails : List String → Bool
  mapFails : List String → Bool

inductive OSError where
  | mkdirErr
  | openErr
  | statErr
  | truncateErr
  | mapErr
deriving DecidableEq, Repr

/-- The per-file loop body of Go `mmapTorrentData` from misc.go: MkdirAll
on the file's parent, OpenFile with O_CREATE, Stat, Truncate to the
declared length only when the current size is smaller, then MapRegion over
the declared length (the successful mapping is the returned pair; Go's
in-body length check then passes by construction).  On a failing OS call
the step returns the corresponding error; the partially updated
directory/file state is dropped there, which neither claim about this
function observes (both concern the success path or the returned
span/mappings). -/
def mmapFileStep (env : OSEnv) (fs : FS) (fileName : List String) (len : Int) :
    Except OSError (FS × (List String × Int)) :=
  if env.mkdirFails fileName.dropLast then .error .mkdirErr
  else if env.openFails fileName then .error .openErr
  else if env.statFails fileName then .error .statErr
  else if ((((fs.mkdirAll fileName.dropLast).openCreate fileName).size fileName).getD 0 < len
            && env.truncateFails fileName) then .error .truncateErr
  else if env.mapFails fileName then .error .mapErr
  else .ok
    (if (((fs.mkdirAll fileName.dropLast).openCreate fileName).size fileName).getD 0 < len
     then ((fs.mkdirAll fileName.dropLast).openCreate fileName).setSize fileName len
     else (fs.mkdirAll fileName.dropLast).openCreate fileName,
     (fileName, len))

/-- The loop of Go `mmapTorrentData`: one step per metainfo file, threading
the filesystem state and accumulating the created mappings (`mms`); the
first error stops the loop. -/
def mmapTorrentDataAux (env : OSEnv) (location name : String) :
    List MIFile → FS → List (List String × Int) →
      FS × List (List String × Int) × Option OSError
  | [], fs, mms => (fs, mms, none)
  | f :: rest, fs, mms =>
    match mmapFileStep env fs (location :: name :: f.Path) f.Length with
    | .error e => (fs, mms, some e)
    | .ok (fs1, m) => mmapTorrentDataAux env location name rest fs1 (mms ++ [m])

/-- Result of `mmapTorrentData`: the returned span (`mms`), the returned
error, and the mappings closed by the deferred cleanup. -/
structure MMapResult where
  mms : List (List String × Int)
  err : Option OSError
  closed : List (List String × Int)
deriving DecidableEq, Repr

/-- Go `mmapTorrentData` from misc.go, including its `defer`: when the loop
ends with a non-nil error, `mms.Close()` runs (closing every mapping
created so far) and `mms` is set to nil before returning. -/
def mmapTorrentData (env : OSEnv) (metaInfo : MetaInfo) (location : String)
    (fs : FS) : FS × MMapResult :=
  match mmapTorrentDataAux env location metaInfo.Name metaInfo.Files fs [] with
  | (fs1, mms, some e) => (fs1, { mms := [], err := some e, closed := mms })
  | (fs1, mms, none) => (fs1, { mms := mms, err := none, closed := [] })

theorem FS.size_mkdirAll (fs : FS) (d p : List String) :
    (fs.mkdirAll d).size p = fs.size p := rfl

theorem FS.size_setSize (fs : FS) (p : List String) (n : Int) :
    (fs.setSize p n).size p = some n := by
  simp [FS.setSize, FS.size, lookupSize]

theorem FS.size_openCreate (fs : FS) (p : List String) :
    (fs.openCreate p).size p = some ((fs.size p).getD 0) := by
  unfold FS.openCreate
  cases hs : fs.size p <;> simp [hs, FS.create, FS.size, lookupSize]
  · simp [FS.size] at hs
    simp [hs]

theorem FS.dirs_openCreate (fs : FS) (p : List String) :
    (fs.openCreate p).dirs = fs.dirs := by
  unfold FS.openCreate
  split <;> rfl

theorem FS.dirs_setSize (fs : FS) (p : List String) (n : Int) :
    (fs.setSize p n).dirs = fs.dirs := rfl

theorem FS.dirs_mkdirAll (fs : FS) (d : List String) :
    (fs.mkdirAll d).dirs = d.inits ++ fs.dirs := rfl

/-- C8: whenever the per-file preparation step of `mmapTorrentData`
succeeds, the file's parent directory exists afterwards, the file exists
with size `max oldSize declaredLength` (an absent file counts as size 0,
so it is created and grown to exactly the declared length), a file smaller
than its declared length has been grown to exactly that length before the
mapping is taken, and a file whose size already meets or exceeds the
declared length keeps its old size — it is never truncated or shrunk. -/
theorem mmapFileStep_spec (env : OSEnv) (fs : FS) (fileName : List String)
    (len : Int) (fs1 : FS) (m : List String × Int)
    (h : mmapFileStep env fs fileName len = .ok (fs1, m)) :
    fileName.dropLast ∈ fs1.dirs ∧
    fs1.size fileName = some (max ((fs.size fileName).getD 0) len) ∧
    ((fs.size fileName).getD 0 < len → fs1.size fileName = some len) ∧
    (len ≤ (fs.size fileName).getD 0 →
      fs1.size fileName = some ((fs.size fileName).getD 0)) ∧
    m = (fileName, len) := by
  unfold mmapFileStep at h
  by_cases h1 : env.mkdirFails fileName.dropLast = true
  · rw [if_pos h1] at h
    exact Except.noConfusion h
  rw [if_neg h1] at h
  by_cases h2 : env.openFails fileName = true
  · rw [if_pos h2] at h
    exact Except.noConfusion h
  rw [if_neg h2] at h
  by_cases h3 : env.statFails fileName = true
  · rw [if_pos h3] at h
    exact Except.noConfusion h
  rw [if_neg h3] at h
  by_cases h4 : ((((fs.mkdirAll fileName.dropLast).openCreate fileName).size
      fileName).getD 0 < len && env.truncateFails fileName) = true
  · rw [if_pos h4] at h
    exact Except.noConfusion h
  rw [if_neg h4] at h
  by_cases h5 : env.mapFails fileName = true
  · rw [if_pos h5] at h
    exact Except.noConfusion h
  rw [if_neg h5] at h
  have hsz : (((fs.mkdirAll fileName.dropLast).openCreate fileName).size
      fileName) = some ((fs.size fileName).getD 0) := by
    rw [FS.size_openCreate, FS.size_mkdirAll]
  simp only [Except.ok.injEq, Prod.mk.injEq] at h
  obtain ⟨hfs, hm⟩ := h
  subst hm
  refine ⟨?_, ?_, ?_, ?_, rfl⟩
  all_goals by_cases hlt : ((fs.size fileName).getD 0) < len
  · rw [← hfs]
    rw [if_pos (by rw [hsz]; simpa using hlt)]
    rw [FS.dirs_setSize, FS.dirs_openCreate, FS.dirs_mkdirAll]
    exact List.mem_append_left _ ((List.mem_inits _ _).mpr List.prefix_rfl)
  · rw [← hfs]
    rw [if_neg (by rw [hsz]; simpa using hlt)]
    rw [FS.dirs_openCreate, FS.dirs_mkdirAll]
    exact List.mem_append_left _ ((List.mem_inits _ _).mpr List.prefix_rfl)
  · rw [← hfs, if_pos (by rw [hsz]; simpa using hlt), FS.size_setSize]
    rw [max_eq_right (le_of_lt hlt)]
  · rw [← hfs, if_neg (by rw [hsz]; simpa using hlt), FS.size_openCreate,
      FS.size_mkdirAll]
    rw [max_eq_left (by omega)]
  · intro _
    rw [← hfs, if_pos (by rw [hsz]; simpa using hlt), FS.size_setSize]
  · intro hcon
    exact absurd hcon (by omega)
  · intro hcon
    exact absurd hlt (by omega)
  · intro _
    rw [← hfs, if_neg (by rw [hsz]; simpa using hlt), FS.size_openCreate,
      FS.size_mkdirAll]

/-- An environment in which every OS call succeeds. -/
def noFailEnv : OSEnv :=
  { mkdirFails := fun _ => false, openFails := fun _ => false,
    statFails := fun _ => false, truncateFails := fun _ => false,
    mapFails := fun _ => false }

/-- The empty filesystem. -/
def emptyFS : FS := { dirs := [], files := [] }

/-- The filesystem after preparing the absent file d/f of declared length
5 in the empty filesystem. -/
def sampleFS1 : FS :=
  { dirs := [[], ["d"]], files := [(["d", "f"], 5), (["d", "f"], 0)] }

/-- C8 witness: the per-file step evaluated on the empty filesystem for an
absent file of declared length 5: the parent directory is created and the
file is grown to exactly 5 bytes. -/
theorem mmapFileStep_spec_witness :
    ["d", "f"].dropLast ∈ sampleFS1.dirs ∧
    sampleFS1.size ["d", "f"] =
      some (max ((emptyFS.size ["d", "f"]).getD 0) 5) ∧
    ((emptyFS.size ["d", "f"]).getD 0 < 5 →
      sampleFS1.size ["d", "f"] = some 5) ∧
    ((5 : Int) ≤ (emptyFS.size ["d", "f"]).getD 0 →
      sampleFS1.size ["d", "f"] = some ((emptyFS.size ["d", "f"]).getD 0)) ∧
    ((["d", "f"], (5 : Int)) : List String × Int) = (["d", "f"], 5) :=
  mmapFileStep_spec noFailEnv emptyFS ["d", "f"] 5 sampleFS1 (["d", "f"], 5) (by rfl)

/-- C10: whenever `mmapTorrentData` returns a non-nil error, the returned
span is nil and the deferred cleanup has closed exactly the file mappings
created before the failure; a partially constructed span is never returned
alongside an error. -/
theorem mmapTorrentData_error_cleanup (env : OSEnv) (mi : MetaInfo)
    (loc : String) (fs : FS) (e : OSError)
    (h : (mmapTorrentData env mi loc fs).2.err = some e) :
    (mmapTorrentData env mi loc fs).2.mms = [] ∧
    (mmapTorrentData env mi loc fs).2.closed =
      (mmapTorrentDataAux env loc mi.Name mi.Files fs []).2.1 := by
  unfold mmapTorrentData at h ⊢
  rcases haux : mmapTorrentDataAux env loc mi.Name mi.Files fs [] with ⟨fs1, mms, err⟩
  cases err
  · rw [haux] at h
    exact Option.noConfusion h
  · exact ⟨rfl, rfl⟩

/-- A metainfo with one file whose directory creation will fail. -/
def sampleMetaInfo : MetaInfo := { Name := "n", Files := [{ Path := ["f"], Length := 1 }] }

/-- An environment in which every MkdirAll call fails. -/
def mkdirFailEnv : OSEnv :=
  { mkdirFails := fun _ => true, openFails := fun _ => false,
    statFails := fun _ => false, truncateFails := fun _ => false,
    mapFails := fun _ => false }

/-- C10 witness: with directory creation failing, `mmapTorrentData`
returns the mkdir error with a nil span, and the closed mappings are
exactly those the loop had created (none). -/
theorem mmapTorrentData_error_cleanup_witness :
    (mmapTorrentData mkdirFailEnv sampleMetaInfo "l" emptyFS).2.err =
      some OSError.mkdirErr ∧
    (mmapTorrentData mkdirFailEnv sampleMetaInfo "l" emptyFS).2.mms = [] ∧
    (mmapTorrentData mkdirFailEnv sampleMetaInfo "l" emptyFS).2.closed =
      (mmapTorrentDataAux mkdirFailEnv "l" sampleMetaInfo.Name
        sampleMetaInfo.Files emptyFS []).2.1 :=
  ⟨rfl,
   mmapTorrentData_error_cleanup mkdirFailEnv sampleMetaInfo "l" emptyFS
     OSError.mkdirErr rfl⟩
